import Mathlib

/-!
# Verification of `scraper/scrape_transport_fc.py`

A shallow embedding of the transit-stop scraper's core pipeline
(coordinate extraction, link collection, bounded crawl, PDF stop
parsing, three-tier coordinate resolution, snapshot diffing) as
executable Lean definitions, together with theorems settling the
specification claims about it.

Conventions of the embedding:
* Python strings are modelled as `List Char` internally (wrapped in
  `String` at component boundaries); machine floats carrying parsed
  decimal coordinates are modelled as `ℚ`.
* Python `dict`s are modelled as association lists with first-match
  lookup and in-place update of the first matching key, which mirrors
  dict semantics exactly as long as keys are not duplicated at
  construction (they are not: all dicts here are built by item
  assignment).
* Fallible operations return `Option`; the external network (HTTP
  fetching, the geocoding service) is passed in as explicit oracle
  functions, mirroring the spec's treatment of fetching and geocoding
  as collaborators.
-/

set_option autoImplicit false

namespace TransportFc

/-- ASCII whitespace. Models Python's `\s` class and `str.strip()` for the
inputs of this development (no exotic Unicode spaces occur). -/
def isWsCh (c : Char) : Bool :=
  c = ' ' || c = '\t' || c = '\n' || c = '\r' || c = '\x0b' || c = '\x0c'

/-- Word characters for Python's Unicode-aware `\w` and `\b`: ASCII
alphanumerics, underscore, and the Latin-1 Supplement / Latin Extended-A
letters (which cover the Polish alphabet appearing in the data). -/
def isWordCh (c : Char) : Bool :=
  c.isAlphanum || c = '_' ||
    (0xC0 ≤ c.toNat && c.toNat ≤ 0x17F && c.toNat ≠ 0xD7 && c.toNat ≠ 0xF7)

/-- Python letter test `str.isalpha` on the character ranges of this
development: ASCII letters plus the Latin-1/Latin Extended-A letters. -/
def isAlphaCh (c : Char) : Bool :=
  c.isAlpha || (0xC0 ≤ c.toNat && c.toNat ≤ 0x17F && c.toNat ≠ 0xD7 && c.toNat ≠ 0xF7)

/-- Python `str.lower` restricted to ASCII (the case-folded comparisons in
the source only ever match ASCII carrier codes and keywords). -/
def lowerCh (c : Char) : Char := c.toLower

def lowerStr (l : List Char) : List Char := l.map lowerCh

/-- Split a character list on every occurrence of `sep`
(Python `str.split(sep)` semantics: `"" ↦ [""]`, `"a&&b" ↦ ["a","","b"]`). -/
def splitOnCh (sep : Char) (l : List Char) : List (List Char) :=
  l.foldr
    (fun c acc =>
      match acc with
      | [] => [[c]]
      | cur :: rest => if c = sep then [] :: cur :: rest else (c :: cur) :: rest)
    [[]]

/-- Split at the first occurrence of `sep`: `(before, after)`. If `sep` does
not occur, `after` is empty. -/
def splitFirst (sep : Char) (l : List Char) : List Char × List Char :=
  match splitOnCh sep l with
  | [] => (l, [])
  | [h] => (h, [])
  | h :: t => (h, List.intercalate [sep] t)

/-- Strip characters satisfying `p` from both ends (Python `str.strip`). -/
def stripBy (p : Char → Bool) (l : List Char) : List Char :=
  ((l.dropWhile p).reverse.dropWhile p).reverse

def pyStrip (l : List Char) : List Char := stripBy isWsCh l

/-- `re.sub(r"\s+", " ", ·)`: squash each maximal whitespace run into one
space. -/
def squashWs : List Char → List Char
  | [] => []
  | [c] => [if isWsCh c then ' ' else c]
  | c :: d :: rest =>
    if isWsCh c && isWsCh d then squashWs (d :: rest)
    else (if isWsCh c then ' ' else c) :: squashWs (d :: rest)

/-- Substring containment, Python's `needle in hay` on strings. -/
def isSubOf (needle : List Char) : List Char → Bool
  | [] => needle.isEmpty
  | c :: cs => needle.isPrefixOf (c :: cs) || isSubOf needle cs

/-- Python `str.rstrip("/")`: drop every trailing slash. -/
def rstripSlash (l : List Char) : List Char :=
  (l.reverse.dropWhile (fun c => c = '/')).reverse

/-- List-of-digit-characters to its numeric value; `none` unless nonempty
and all digits. -/
def parseDigits (l : List Char) : Option Nat :=
  if l.isEmpty then none
  else if l.all (fun c => c.isDigit) then
    some (l.foldl (fun n c => 10 * n + (c.toNat - 48)) 0)
  else none

/-- Model of Python `float(s)` restricted to plain decimal notation
(optional sign; `d+`, `d+.d*` or `.d+`), with surrounding whitespace
stripped as `float` does. The other forms Python accepts (exponents,
underscores, `inf`/`nan`) never reach `float` in this program: every call
site feeds it regex-constrained or query-parameter decimal tokens.
Malformed input gives `none`, modelling the caught `ValueError`. -/
def pyFloat? (s : List Char) : Option ℚ :=
  let l := pyStrip s
  let sign : ℚ × List Char :=
    match l with
    | c :: rest =>
      if c = '-' then (-1, rest) else if c = '+' then (1, rest) else (1, c :: rest)
    | [] => (1, [])
  match splitOnCh '.' sign.2 with
  | [ip] => (parseDigits ip).map (fun n => sign.1 * (n : ℚ))
  | [ip, fp] =>
    if ip.isEmpty && fp.isEmpty then none
    else
      match (if ip.isEmpty then some 0 else parseDigits ip),
            (if fp.isEmpty then some 0 else parseDigits fp) with
      | some i, some f => some (sign.1 * ((i : ℚ) + (f : ℚ) / ((10 : ℚ) ^ fp.length)))
      | _, _ => none
  | _ => none

/-- `urlsplit(·).fragment`: everything after the first `#`. -/
def urlFragment (s : List Char) : List Char := (splitFirst '#' s).2

/-- The part of the URL before any fragment. -/
def urlPreFragment (s : List Char) : List Char := (splitFirst '#' s).1

/-- `urlsplit(·).query`: everything after the first `?` of the
pre-fragment part. -/
def urlQuery (s : List Char) : List Char := (splitFirst '?' (urlPreFragment s)).2

/-- `urlsplit(·).netloc` for the URL shapes of this development: the
substring between the first `//` and the next `/`, `?` or `#`; empty when
no `//` occurs. -/
def netlocAux : List Char → List Char
  | '/' :: '/' :: rest => rest.takeWhile (fun c => c ≠ '/' && c ≠ '?' && c ≠ '#')
  | _ :: rest => netlocAux rest
  | [] => []

def urlNetloc (s : List Char) : List Char := netlocAux s

/-- `'+' ↦ ' '` of `urllib`'s query decoding. Percent-decoding is modelled
as the identity: no percent-encoded query inputs occur in this program. -/
def pqDecode (l : List Char) : List Char := l.map (fun c => if c = '+' then ' ' else c)

/-- Model of `parse_qs(query).get(key, [None])[0]`: the first `&`-separated
`k=v` pair whose decoded key is `key` and whose raw value is non-empty
(`parse_qs` drops blank values by default). -/
def parse_qs_first (query key : List Char) : Option (List Char) :=
  (splitOnCh '&' query).findSome? (fun part =>
    if pqDecode (splitFirst '=' part).1 == key && !(splitFirst '=' part).2.isEmpty then
      some (pqDecode (splitFirst '=' part).2)
    else none)

/-- Entire-token match of the regex piece `[+-]?[0-9.]+`. -/
def numTok (l : List Char) : Bool :=
  let core :=
    match l with
    | c :: rest => if c = '+' || c = '-' then rest else c :: rest
    | [] => []
  !core.isEmpty && core.all (fun c => c.isDigit || c = '.')

/-- One `&`-chunk of the fragment against `map=\d+/([+-]?[0-9.]+)/([+-]?[0-9.]+)`
anchored to the chunk (the regex `OSM_MAP_FRAG` anchors each side to `^`/`&`/`$`,
and none of its pieces can contain `&`). -/
def mapChunk? (chunk : List Char) : Option (List Char × List Char) :=
  if (String.data "map=").isPrefixOf chunk then
    match splitOnCh '/' (chunk.drop 4) with
    | [z, a, b] =>
      if !z.isEmpty && z.all (fun c => c.isDigit) && numTok a && numTok b then
        some (a, b)
      else none
    | _ => none
  else none

/-- `OSM_MAP_FRAG.search(fragment)`: the leftmost matching chunk. -/
def fragSearch (frag : List Char) : Option (List Char × List Char) :=
  (splitOnCh '&' frag).findSome? mapChunk?

def commaToDot (l : List Char) : List Char :=
  l.map (fun c => if c = ',' then '.' else c)

/-- `float` both tokens or fail (the caught `ValueError`). -/
def floatPair (a b : List Char) : Option (ℚ × ℚ) :=
  match pyFloat? a, pyFloat? b with
  | some x, some y => some (x, y)
  | _, _ => none

/-- The `mlat`/`mlon` query tier of `extract_latlon`
(scrape_transport_fc.py:102-110): both parameters present and non-empty
(`if mlat and mlon`), decimal comma normalized to a dot, parse failure
caught. -/
def queryPairTier (query : List Char) : Option (ℚ × ℚ) :=
  match parse_qs_first query (String.data "mlat"),
        parse_qs_first query (String.data "mlon") with
  | some mlat, some mlon =>
    if !mlat.isEmpty && !mlon.isEmpty then
      floatPair (commaToDot mlat) (commaToDot mlon)
    else none
  | _, _ => none

/-- The `map=<zoom>/<lat>/<lon>` fragment tier of `extract_latlon`
(scrape_transport_fc.py:113-119). -/
def fragPairTier (frag : List Char) : Option (ℚ × ℚ) :=
  match fragSearch frag with
  | some ab => floatPair ab.1 ab.2
  | none => none

/-- Embedding of `extract_latlon` (scrape_transport_fc.py:96): strip all
whitespace from the href, then try the `mlat`/`mlon` query parameters if
a query is present and, failing that, the fragment pattern if a fragment
is present. -/
def extract_latlon (href : String) : Option (ℚ × ℚ) :=
  let s := href.data.filter (fun c => !isWsCh c)
  let fromQuery : Option (ℚ × ℚ) :=
    if (urlQuery s).isEmpty then none else queryPairTier (urlQuery s)
  match fromQuery with
  | some p => some p
  | none =>
    if (urlFragment s).isEmpty then none else fragPairTier (urlFragment s)

/-- Reference definition for claim C7, written from the spec's words:
`extract_from_link` first tries the `mlat`/`mlon` query parameters
(either `.` or `,` as decimal separator, returning the exact numeric
pair); when those are absent or malformed it tries the
`map=<zoom>/<lat>/<lon>` fragment pattern; the first match found is
returned, and malformed numerics yield `none` rather than an error.
The nonemptiness guards of the source do not appear: the spec's
description is in terms of the parameter/fragment lookups alone.
`queryPairTierSpec` is the spec-side query tier, `extract_from_link_spec`
the whole spec-side function. -/
def queryPairTierSpec (query : List Char) : Option (ℚ × ℚ) :=
  match parse_qs_first query (String.data "mlat"),
        parse_qs_first query (String.data "mlon") with
  | some mlat, some mlon => floatPair (commaToDot mlat) (commaToDot mlon)
  | _, _ => none

def extract_from_link_spec (href : String) : Option (ℚ × ℚ) :=
  let s := href.data.filter (fun c => !isWsCh c)
  (queryPairTierSpec (urlQuery s)).orElse (fun _ => fragPairTier (urlFragment s))

/-! ## Regex scanners: `TIME_RE` and `LATLON_INLINE`

The two inline regexes are implemented as explicit scanners with Python
`re` semantics (leftmost match, greedy with backtracking, `findall`/`sub`
non-overlapping).  They are fuel-indexed so they compute by kernel
reduction; the fuel is always the input length, which each step strictly
decreases. -/

/-- Does the next character block a closing `\b` (i.e. is it a word char)? -/
def nextIsWord : List Char → Bool
  | [] => false
  | c :: _ => isWordCh c

/-- Match of `\d{1,2}[:.]\d{2}\b` starting at the head for the one-digit
hour alternative. Returns the token and its length. -/
def timeTokOne : List Char → Option (List Char × Nat)
  | d1 :: s :: m1 :: m2 :: rest =>
    if d1.isDigit && (s = ':' || s = '.') && m1.isDigit && m2.isDigit &&
        !nextIsWord rest then
      some ([d1, s, m1, m2], 4)
    else none
  | _ => none

/-- Match of `\d{1,2}[:.]\d{2}\b` starting at the head: the greedy
two-digit hour is tried first, then the one-digit alternative
(backtracking order of the regex engine). The leading `\b` is checked by
the caller. -/
def timeTok (l : List Char) : Option (List Char × Nat) :=
  match l with
  | d1 :: d2 :: s :: m1 :: m2 :: rest =>
    if d1.isDigit && d2.isDigit && (s = ':' || s = '.') && m1.isDigit && m2.isDigit &&
        !nextIsWord rest then
      some ([d1, d2, s, m1, m2], 5)
    else timeTokOne l
  | _ => timeTokOne l

/-- One left-to-right scan of `TIME_RE` over the input, producing both
`TIME_RE.findall` (first component) and `TIME_RE.sub("", ·)` (second
component).  `prevWord` tracks whether the previous character is a word
character (for the leading `\b`); matches are non-overlapping and
scanning resumes right after each match, as `re` does. -/
def timeScan : Nat → Bool → List Char → List (List Char) × List Char
  | 0, _, l => ([], l)
  | _ + 1, _, [] => ([], [])
  | fuel + 1, prevWord, c :: cs =>
    match (if prevWord then none else timeTok (c :: cs)) with
    | some tk =>
      let res := timeScan fuel true ((c :: cs).drop tk.2)
      (tk.1 :: res.1, res.2)
    | none =>
      let res := timeScan fuel (isWordCh c) cs
      (res.1, c :: res.2)

def TIME_findall (l : List Char) : List (List Char) :=
  (timeScan l.length false l).1

def TIME_sub (l : List Char) : List Char :=
  (timeScan l.length false l).2

/-- Match of `[+-]?\d{1,x}[.,]\d{4,}` at the head of the input, where `x`
is `maxInt` (2 for the latitude group, 3 for the longitude group).
Returns the matched token and the rest.  Greediness is deterministic
here: a shorter integer-digit alternative can never succeed when a longer
one fails, because the following character of a shorter take is a digit,
which `[.,]` rejects; and the fractional `\d{4,}` never backtracks
because nothing following it can match a digit. -/
def decNum (maxInt : Nat) (l : List Char) : Option (List Char × List Char) :=
  let sgn : List Char × List Char :=
    match l with
    | c :: rest => if c = '+' || c = '-' then ([c], rest) else ([], c :: rest)
    | [] => ([], [])
  let ds := sgn.2.takeWhile (fun c => c.isDigit)
  let r1 := sgn.2.drop ds.length
  if ds.length = 0 || maxInt < ds.length then none
  else
    match r1 with
    | sep :: r2 =>
      if sep = '.' || sep = ',' then
        let fs := r2.takeWhile (fun c => c.isDigit)
        if 4 ≤ fs.length then some (sgn.1 ++ ds ++ sep :: fs, r2.drop fs.length)
        else none
      else none
    | [] => none

/-- The separator `\s*[,;/\s]\s*` between the two coordinate groups.
Backtracking is again deterministic: the longitude group must start with
a sign or digit, so of all the ways to split a run of whitespace around
the one-character class only two candidate end positions exist, and at
most one of them can precede a sign/digit. -/
def latlonSep (l : List Char) : Option (List Char) :=
  let ws := l.takeWhile isWsCh
  let r := l.drop ws.length
  match r with
  | c :: r2 =>
    if c = ',' || c = ';' || c = '/' then
      let ws2 := r2.takeWhile isWsCh
      some (r2.drop ws2.length)
    else if 1 ≤ ws.length then some r
    else none
  | [] => if 1 ≤ ws.length then some [] else none

/-- A `LATLON_INLINE` match starting at the head: `(lat group, lon group,
total length consumed)`. -/
def latlonAt (l : List Char) : Option (List Char × List Char × Nat) :=
  match decNum 2 l with
  | some latm =>
    match latlonSep latm.2 with
    | some r2 =>
      match decNum 3 r2 with
      | some lonm => some (latm.1, lonm.1, l.length - lonm.2.length)
      | none => none
    | none => none
  | none => none

/-- One left-to-right scan of `LATLON_INLINE`: first component is the
`re.search` result (groups of the leftmost match), second is
`LATLON_INLINE.sub("", ·)`. -/
def latlonScan : Nat → List Char → Option (List Char × List Char) × List Char
  | 0, l => (none, l)
  | _ + 1, [] => (none, [])
  | fuel + 1, c :: cs =>
    match latlonAt (c :: cs) with
    | some m =>
      let res := latlonScan fuel ((c :: cs).drop m.2.2)
      (some (m.1, m.2.1), res.2)
    | none =>
      let res := latlonScan fuel cs
      (res.1, c :: res.2)

def LATLON_search (l : List Char) : Option (List Char × List Char) :=
  (latlonScan l.length l).1

def LATLON_sub (l : List Char) : List Char :=
  (latlonScan l.length l).2

/-- Embedding of `extract_latlon_from_text` (scrape_transport_fc.py:122):
first `LATLON_INLINE` match, decimal commas normalized, `ValueError`
caught as `none`. -/
def extract_latlon_from_text (text : List Char) : Option (ℚ × ℚ) :=
  match LATLON_search text with
  | none => none
  | some g =>
    match pyFloat? (commaToDot g.1), pyFloat? (commaToDot g.2) with
    | some a, some b => some (a, b)
    | _, _ => none

/-- Embedding of `normalize_stop_name` (scrape_transport_fc.py:133):
collapse whitespace, trim, lowercase, then drop everything outside
`[\w\s-]`. -/
def normalize_stop_name (name : String) : String :=
  let cleaned := lowerStr (pyStrip (squashWs name.data))
  String.mk (cleaned.filter (fun c => isWordCh c || isWsCh c || c = '-'))

/-! ## PDF stop-line parsing -/

/-- Stable insertion into a `le`-sorted list (equal elements keep their
insertion order, as Python's `sorted` guarantees). -/
def sInsert {α : Type} (le : α → α → Bool) (x : α) : List α → List α
  | [] => [x]
  | y :: ys => if le y x then y :: sInsert le x ys else x :: y :: ys

def pySorted {α : Type} (le : α → α → Bool) (l : List α) : List α :=
  l.foldl (fun acc x => sInsert le x acc) []

/-- Code-point lexicographic `≤` on character lists (Python `str` order). -/
def strLe : List Char → List Char → Bool
  | [], _ => true
  | _ :: _, [] => false
  | a :: as, b :: bs => if a = b then strLe as bs else decide (a.toNat < b.toNat)

/-- Keep the first occurrence of each element (used to model a Python
`set` whose members are subsequently sorted). -/
def dedupFirstAux {α : Type} [BEq α] (seen : List α) : List α → List α
  | [] => []
  | x :: xs =>
    if seen.contains x then dedupFirstAux seen xs
    else x :: dedupFirstAux (x :: seen) xs

def dedupFirst {α : Type} [BEq α] (l : List α) : List α := dedupFirstAux [] l

structure StopEntry where
  stop_name : String
  context_times : List String
  latlon_inline : Option (ℚ × ℚ)
deriving DecidableEq, Repr

/-- Processing of one PDF text line by `parse_pdf_stop_lines`
(scrape_transport_fc.py:251): collapse/trim whitespace, drop short lines
and heading/legend lines, collect normalized time tokens, attempt inline
coordinate extraction, remove time tokens (and the coordinate substring
when one matched) to derive the stop name, and discard the line when the
remaining name is shorter than 3 characters. -/
def parseStopLine (raw : List Char) : Option StopEntry :=
  let line := pyStrip (squashWs raw)
  if line.isEmpty then none
  else if line.length < 3 then none
  else if isSubOf (String.data "rozklad") (lowerStr line) ||
      isSubOf (String.data "godz") (lowerStr line) ||
      isSubOf (String.data "legenda") (lowerStr line) then none
  else
    let times := (TIME_findall line).map
      (fun t => String.mk (t.map (fun c => if c = '.' then ':' else c)))
    let latlon := extract_latlon_from_text line
    let name0 := TIME_sub line
    let name1 := if latlon.isSome then LATLON_sub name0 else name0
    let name2 := stripBy
      (fun c => c = ' ' || c = '-' || c = '–' || c = ':' || c = ';' || c = '|')
      (squashWs name1)
    if name2.isEmpty || name2.length < 3 then none
    else some ⟨String.mk name2,
      pySorted (fun a b => strLe a.data b.data) (dedupFirst times), latlon⟩

/-- Embedding of `parse_pdf_stop_lines` (scrape_transport_fc.py:251); the
source's append loop over `text.splitlines()` is the filter-map of
`parseStopLine` over the lines. -/
def parse_pdf_stop_lines (text : String) : List StopEntry :=
  (splitOnCh '\n' text.data).filterMap parseStopLine

/-! ## HTML link collection and the bounded crawler

HTML pages are modelled as the BeautifulSoup view the source works with:
the ordered list of `<a href=...>` anchors (title = `get_text(strip=True)`)
plus the raw text for substring checks.  `urljoin` and `urlsplit` are
stdlib collaborators, modelled for the URL shapes of this program. -/

structure Anchor where
  title : String
  href : String
deriving DecidableEq, Repr

structure Link where
  title : String
  url : String
deriving DecidableEq, Repr

structure Page where
  anchors : List Anchor
  raw : String
deriving Repr

/-- The `scheme://netloc` prefix of an absolute URL (everything up to the
end of the authority). -/
def schemeHostAux : List Char → List Char
  | '/' :: '/' :: rest =>
    '/' :: '/' :: rest.takeWhile (fun c => c ≠ '/' && c ≠ '?' && c ≠ '#')
  | c :: rest => c :: schemeHostAux rest
  | [] => []

/-- The base URL up to and including the last `/` of its path. -/
def baseDir (base : List Char) : List Char :=
  let pre := (splitFirst '?' (urlPreFragment base)).1
  (pre.reverse.dropWhile (fun c => c ≠ '/')).reverse

/-- Model of `urllib.parse.urljoin` for the href shapes of this
development: an absolute `http(s)` href stands alone, a root-relative
href replaces the base's path, any other non-empty href replaces the
base's last path segment, and an empty href yields the base. -/
def urljoin (base href : List Char) : List Char :=
  if (String.data "http://").isPrefixOf href || (String.data "https://").isPrefixOf href then
    href
  else if (String.data "/").isPrefixOf href then schemeHostAux base ++ href
  else if href.isEmpty then base
  else baseDir base ++ href

/-- First-match association-list lookup: Python `dict` access for dicts
with unique keys. -/
def lookup? {α : Type} (m : List (String × α)) (k : String) : Option α :=
  (m.find? (fun e => e.1 == k)).map Prod.snd

/-- `m[k] = v` on a Python dict: replace the value at the first matching
key in place, else append a new entry. -/
def pyUpsert {α : Type} : List (String × α) → String → α → List (String × α)
  | [], k, v => [(k, v)]
  | e :: rest, k, v => if e.1 = k then (k, v) :: rest else e :: pyUpsert rest k v

/-- The dict built by the comprehension `{x["url"]: x for x in xs}`. -/
def pyDictByUrl (xs : List Link) : List (String × Link) :=
  xs.foldl (fun m x => pyUpsert m x.url x) []

/-- `list({x["url"]: x for x in xs}.values())` — the dedup idiom used by
`_links`, `_extract_pdf_links` and `_bfs_collect`. -/
def dedupByUrlLast (xs : List Link) : List Link :=
  (pyDictByUrl xs).map Prod.snd

/-- The pre-dedup link list built by the anchor loop of `_links`
(scrape_transport_fc.py:208): resolve each href against the base, keep it
when it starts with `http` and its netloc ends with the host. -/
def linksRaw (anchors : List Anchor) (base host : List Char) : List Link :=
  anchors.filterMap (fun a =>
    let href := urljoin base a.href.data
    if (String.data "http").isPrefixOf href && host.isSuffixOf (urlNetloc href) then
      some ⟨a.title, String.mk href⟩
    else none)

/-- Embedding of `_links` (scrape_transport_fc.py:208).  The
`content_only` scoping selects which anchor list is in scope before the
loop; the anchors argument is that scope's anchors. -/
def _links (anchors : List Anchor) (base host : List Char) : List Link :=
  dedupByUrlLast (linksRaw anchors base host)

/-- Embedding of `_page_has_osm` (scrape_transport_fc.py:220). -/
def _page_has_osm (page : Page) : Bool :=
  isSubOf (String.data "openstreetmap.org") page.raw.data

/-- Embedding of `_extract_pdf_links` (scrape_transport_fc.py:223). -/
def _extract_pdf_links (anchors : List Anchor) (base : List Char) : List Link :=
  dedupByUrlLast (anchors.filterMap (fun a =>
    let href := urljoin base a.href.data
    if (String.data ".pdf").isSuffixOf (lowerStr href) then
      some ⟨a.title, String.mk href⟩
    else none))

def MAX_PAGES_PER_HOST : Nat := 300

def MAX_DEPTH : Nat := 2

def EXCLUDED_SEGMENTS : List String :=
  ["/category/", "/kategoria/", "/tag/", "/page/"]

def hasExcludedSegment (u : List Char) : Bool :=
  EXCLUDED_SEGMENTS.any (fun seg => isSubOf seg.data u)

/-- What claim C5 requires of every frontier entry the crawler discovers
and enqueues: its depth is within the cap and its URL carries no
excluded path segment. -/
def enqOk (e : String × Nat) : Bool :=
  decide (e.2 ≤ MAX_DEPTH) && !hasExcludedSegment e.1.data

/-- The crawl loop state of `_bfs_collect` (scrape_transport_fc.py:318),
instrumented with the list of URLs passed to `get` (`fetched`) and the
list of discovered links appended to the frontier (`enqueued`); the
source's `seen` set is added to exactly when a fetch is attempted, so
`seen` and `fetched` coincide in this model. -/
structure CrawlState where
  seen : List String
  queue : List (String × Nat)
  kept : List Link
  fetched : List String
  enqueued : List (String × Nat)
deriving Repr

inductive StepRes where
  | done (st : CrawlState)
  | cont (st : CrawlState)

/-- The body of one loop iteration after a successful fetch: record the
page as a kept candidate when it has the map marker, and (below the depth
cap) enqueue the same-host links that are not yet seen and carry no
excluded path segment. -/
def bfsNewLinks (host : List Char) (u : String) (page : Page)
    (st2 : CrawlState) : List String :=
  ((_links page.anchors u.data host).map
      (fun l => String.mk (rstripSlash l.url.data))).filter
    (fun v => !st2.seen.contains v && !hasExcludedSegment v.data)

def bfsEnqueue (host : List Char) (depth : Nat) (u : String) (page : Page)
    (st2 : CrawlState) : CrawlState :=
  if depth < MAX_DEPTH then
    { st2 with
      queue := st2.queue ++ (bfsNewLinks host u page st2).map (fun v => (v, depth + 1)),
      enqueued :=
        st2.enqueued ++ (bfsNewLinks host u page st2).map (fun v => (v, depth + 1)) }
  else st2

def bfsProcessPage (host : List Char) (depth : Nat) (u : String) (page : Page)
    (st1 : CrawlState) : CrawlState :=
  bfsEnqueue host depth u page
    (if _page_has_osm page then { st1 with kept := st1.kept ++ [⟨"", u⟩] } else st1)

/-- Mark the popped URL as seen and record the fetch attempt
(`seen.add(u)` followed by `get(u)`). -/
def bfsFetchMark (st : CrawlState) (u : String) (rest : List (String × Nat)) : CrawlState :=
  { st with seen := st.seen ++ [u], queue := rest, fetched := st.fetched ++ [u] }

/-- One iteration of the `_bfs_collect` while-loop. `web` is the fetch
collaborator (`none` = the caught fetch failure).  The politeness sleep
is an I/O suspension point with no state effect and is not modelled. -/
def bfsStep (web : String → Option Page) (host : List Char) (st : CrawlState) : StepRes :=
  match st.queue with
  | [] => .done st
  | (url, depth) :: rest =>
    if st.seen.length < MAX_PAGES_PER_HOST then
      let u := String.mk (rstripSlash url.data)
      if st.seen.contains u then .cont { st with queue := rest }
      else
        match web u with
        | none => .cont (bfsFetchMark st u rest)
        | some page => .cont (bfsProcessPage host depth u page (bfsFetchMark st u rest))
    else .done st

/-- Fuel-indexed iteration of the crawl loop; the loop always terminates
(each iteration either shrinks the frontier or fetches a page, and both
are bounded), and every theorem below holds for every fuel. -/
def bfsLoop (web : String → Option Page) (host : List Char) : Nat → CrawlState → CrawlState
  | 0, st => st
  | fuel + 1, st =>
    match bfsStep web host st with
    | .done stDone => stDone
    | .cont stNext => bfsLoop web host fuel stNext

/-- The final loop state of `_bfs_collect web host_base seeds`. -/
def bfsRun (web : String → Option Page) (host_base : String) (seeds : List String)
    (fuel : Nat) : CrawlState :=
  bfsLoop web (urlNetloc host_base.data) fuel ⟨[], seeds.map (fun u => (u, 0)), [], [], []⟩

/-- Embedding of `_bfs_collect` (scrape_transport_fc.py:318). -/
def _bfs_collect (web : String → Option Page) (host_base : String) (seeds : List String)
    (fuel : Nat) : List Link :=
  dedupByUrlLast (bfsRun web host_base seeds fuel).kept

/-- The last element of `xs` with the given URL (spec-side description
used to state what the dict-comprehension dedup keeps). -/
def lastWithUrl (xs : List Link) (u : String) : Option Link :=
  (xs.filter (fun x => x.url == u)).getLast?

/-! ## Geocoding and three-tier coordinate resolution -/

/-- Outcome of one Nominatim query, as the source distinguishes them:
`err` is a raised/failed request or an unparseable best hit (all of which
take the same negative-cache branch), `empty` an empty result list, `ok`
a parsed best match. -/
inductive GeoResult where
  | err
  | empty
  | ok (lat lon : ℚ)
deriving DecidableEq

/-- One geocode-cache value.  The cache file and the in-run cache only
ever hold objects of the shape `{"lat": ..., "lon": ...}` (written at
scrape_transport_fc.py:190/194/201/204), so the source's
`isinstance(cached, dict) and "lat" in cached and "lon" in cached` guard
is always satisfied for them; a negative entry has both fields null. -/
structure CacheEntry where
  lat : Option ℚ
  lon : Option ℚ
deriving DecidableEq, Repr

abbrev GeocodeCache := List (String × CacheEntry)

structure GeoOut where
  result : Option (Option ℚ × Option ℚ)
  cache : GeocodeCache
  networkCalled : Bool
deriving DecidableEq

/-- Embedding of `geocode_stop` (scrape_transport_fc.py:162).  `geo` is
the Nominatim collaborator, `enabled` the `GEOCODE_ENABLED` flag.  On a
cache hit the source returns `cached["lat"], cached["lon"]` — whatever
those values are, null included — without any network call; on a miss
every outcome is written to the cache before returning.  The result pair
components are `Option ℚ` because the cached values can be null.  The
rate-limiting sleep after a live hit is an I/O suspension point with no
state effect and is not modelled. -/
def geocode_stop (name : String) (cache : GeocodeCache) (geo : String → GeoResult)
    (enabled : Bool) : GeoOut :=
  if !enabled then ⟨none, cache, false⟩
  else
    let key := normalize_stop_name name
    match lookup? cache key with
    | some cached => ⟨some (cached.lat, cached.lon), cache, false⟩
    | none =>
      match geo name with
      | .err => ⟨none, pyUpsert cache key ⟨none, none⟩, true⟩
      | .empty => ⟨none, pyUpsert cache key ⟨none, none⟩, true⟩
      | .ok la lo => ⟨some (some la, some lo), pyUpsert cache key ⟨some la, some lo⟩, true⟩

/-- One prior-snapshot index entry (always non-null coordinates: the
builder skips rows with null coordinates). -/
structure PrevEntry where
  lat : ℚ
  lon : ℚ
  fc : String
deriving DecidableEq

abbrev PrevIndex := List (String × List PrevEntry)

/-- One flattened, persisted snapshot row (a `ResolvedStop`). -/
structure SnapStop where
  fc : String
  route : String
  route_slug : String
  source : String
  stop_name : String
  lat : Option ℚ
  lon : Option ℚ
  url : String
  context_times : List String
deriving DecidableEq, Repr

/-- `index[name].append(entry)` on the `defaultdict(list)`. -/
def indexAppend (idx : PrevIndex) (k : String) (e : PrevEntry) : PrevIndex :=
  match lookup? idx k with
  | some l => pyUpsert idx k (l ++ [e])
  | none => pyUpsert idx k [e]

/-- Embedding of `build_prev_stop_index` (scrape_transport_fc.py:283):
index previous-snapshot rows by normalized stop name, skipping rows with
an empty normalized name or a null coordinate. -/
def build_prev_stop_index (prev : Option (List SnapStop)) : PrevIndex :=
  match prev with
  | none => []
  | some stops =>
    stops.foldl (fun idx stop =>
      let name := normalize_stop_name stop.stop_name
      if name.isEmpty then idx
      else
        match stop.lat, stop.lon with
        | some la, some lo => indexAppend idx name ⟨la, lo, stop.fc⟩
        | _, _ => idx) []

/-- Embedding of `resolve_stop_coordinates` (scrape_transport_fc.py:297):
inline pair first, then the prior-snapshot index (preferring a
carrier-matched entry when a carrier label is given), then the geocoder.
Returns the resolved pair (components nullable, see `geocode_stop`) and
the possibly-updated cache.  The `[]` candidate case is unreachable for
indices built by `build_prev_stop_index`, which never stores an empty
list. -/
def resolve_stop_coordinates (stop_name : String) (fc_label : Option String)
    (prev_index : PrevIndex) (cache : GeocodeCache) (inline_latlon : Option (ℚ × ℚ))
    (geo : String → GeoResult) (enabled : Bool) :
    Option (Option ℚ × Option ℚ) × GeocodeCache :=
  match inline_latlon with
  | some p => (some (some p.1, some p.2), cache)
  | none =>
    let norm := normalize_stop_name stop_name
    match lookup? prev_index norm with
    | some candidates =>
      let viaFc : Option (Option ℚ × Option ℚ) :=
        match fc_label with
        | some fc =>
          match candidates.find? (fun item => item.fc == fc) with
          | some item => some (some item.lat, some item.lon)
          | none => none
        | none => none
      match viaFc with
      | some r => (some r, cache)
      | none =>
        match candidates with
        | c :: _ => (some (some c.lat, some c.lon), cache)
        | [] => (none, cache)
    | none =>
      let g := geocode_stop stop_name cache geo enabled
      (g.result, g.cache)

/-! ## PDF route collection and the overall scrape -/

def FC_SUBS : List String :=
  ["szz1", "poz2", "poz1", "ktw1", "ktw3", "ktw5",
   "wro1", "wro2", "wro3", "wro4", "wro5",
   "lcj2", "lcj3", "lcj4"]

def WRO_COMMON : List String := ["wro1", "wro2", "wro3", "wro4"]

def EMPLOYEE_TRANSPORT_URL : String := "https://transport-fc.pl/employee-transport.html"

/-- Embedding of `detect_fc_from_text` (scrape_transport_fc.py:235): the
first known carrier code occurring (case-insensitively) in the text,
uppercased. -/
def detect_fc_from_text (text : String) : Option String :=
  let lowered := lowerStr text.data
  (FC_SUBS.find? (fun fc => isSubOf fc.data lowered)).map
    (fun fc => String.mk (fc.data.map Char.toUpper))

/-- `urlsplit(·).path` for the absolute URLs of this development. -/
def pathAfterNetloc : List Char → Option (List Char)
  | '/' :: '/' :: rest => some (rest.dropWhile (fun c => c ≠ '/'))
  | _ :: rest => pathAfterNetloc rest
  | [] => none

def urlPath (s : List Char) : List Char :=
  let pre := (splitFirst '?' (urlPreFragment s)).1
  (pathAfterNetloc pre).getD pre

/-- `os.path.basename`: everything after the last `/`. -/
def basenameOf (p : List Char) : List Char :=
  (p.reverse.takeWhile (fun c => c ≠ '/')).reverse

/-- Embedding of `infer_route_title_from_pdf` (scrape_transport_fc.py:242).
Percent-decoding (`unquote`) is modelled as the identity: no
percent-encoded names occur in this development. -/
def infer_route_title_from_pdf (url : String) (first_lines : List String) : String :=
  let filename := basenameOf (urlPath url.data)
  let base0 :=
    if (String.data ".pdf").isSuffixOf (lowerStr filename) then
      filename.take (filename.length - 4)
    else filename
  let base := pyStrip (base0.map (fun c => if c = '_' || c = '-' then ' ' else c))
  match first_lines.find? (fun ln => 4 ≤ ln.data.length && ln.data.any isAlphaCh) with
  | some ln => String.mk (pyStrip ln.data)
  | none => if base.isEmpty then url else String.mk base

/-- Model of `slugify` (the `python-slugify` collaborator) for the ASCII
inputs of this development: lowercase, runs of non-alphanumerics become
single hyphens, hyphens stripped at both ends. -/
def slugify (s : String) : String :=
  let l := (lowerStr s.data).map (fun c => if c.isAlphanum then c else ' ')
  String.mk ((squashWs (pyStrip l)).map (fun c => if c = ' ' then '-' else c))

/-- The network collaborators of the scrape: `fetchPage` models
`get(url).text` for HTML pages, `fetchPdfText` models downloading a PDF
and extracting its text with pdfplumber (`none` is any caught download or
parse failure). -/
structure Web where
  fetchPage : String → Option Page
  fetchPdfText : String → Option String

structure OutStop where
  stop_name : String
  lat : Option ℚ
  lon : Option ℚ
  url : String
  context_times : List String
deriving DecidableEq, Repr

structure Route where
  fc : String
  route : String
  route_slug : String
  source : String
  stops : List OutStop
deriving DecidableEq, Repr

/-- The per-entry resolution loop of `scrape_employee_transport_pdfs`
(scrape_transport_fc.py:396-415): resolve each parsed stop, keep a row
for every truthy resolver result (`if not coords: continue` — note the
resolver's result is a tuple whenever it is not `None`, and any tuple of
two elements is truthy in Python), threading the geocode cache. -/
def resolveEntries (prev : PrevIndex) (geo : String → GeoResult) (enabled : Bool)
    (fcOpt : Option String) (pdf_url : String) :
    List StopEntry → GeocodeCache → List OutStop × GeocodeCache
  | [], cache => ([], cache)
  | e :: es, cache =>
    let r := resolve_stop_coordinates e.stop_name fcOpt prev cache e.latlon_inline geo enabled
    match r.1 with
    | none => resolveEntries prev geo enabled fcOpt pdf_url es r.2
    | some ll =>
      let rest := resolveEntries prev geo enabled fcOpt pdf_url es r.2
      (⟨e.stop_name, ll.1, ll.2, pdf_url, e.context_times⟩ :: rest.1, rest.2)

/-- The per-PDF loop of `scrape_employee_transport_pdfs`
(scrape_transport_fc.py:366-428): skip failed downloads/parses and empty
texts, infer title and carrier, parse stop lines, resolve them, and emit
a route when at least one row survived. -/
def processPdfLinks (web : Web) (geo : String → GeoResult) (enabled : Bool)
    (prev : PrevIndex) : List Link → GeocodeCache → List Route × GeocodeCache
  | [], cache => ([], cache)
  | link :: restLinks, cache =>
    let pdf_url := link.url
    match web.fetchPdfText pdf_url with
    | none => processPdfLinks web geo enabled prev restLinks cache
    | some combined =>
      if (pyStrip combined.data).isEmpty then
        processPdfLinks web geo enabled prev restLinks cache
      else
        let first_lines :=
          (((splitOnCh '\n' combined.data).filter
              (fun ln => !(pyStrip ln).isEmpty)).take 5).map String.mk
        let route_title := infer_route_title_from_pdf pdf_url first_lines
        let fc_label :=
          ((detect_fc_from_text route_title).orElse
            (fun _ => detect_fc_from_text pdf_url)).getD "UNKNOWN"
        let stop_entries := parse_pdf_stop_lines combined
        if stop_entries.isEmpty then processPdfLinks web geo enabled prev restLinks cache
        else
          let rr := resolveEntries prev geo enabled
            (if fc_label ≠ "UNKNOWN" then some fc_label else none) pdf_url stop_entries cache
          if rr.1.isEmpty then processPdfLinks web geo enabled prev restLinks rr.2
          else
            let rest := processPdfLinks web geo enabled prev restLinks rr.2
            (⟨fc_label, route_title,
              slugify (String.mk (lowerStr fc_label.data) ++ "-" ++ route_title),
              pdf_url, rr.1⟩ :: rest.1, rest.2)

/-- Embedding of `scrape_employee_transport_pdfs`
(scrape_transport_fc.py:353). -/
def scrape_employee_transport_pdfs (web : Web) (geo : String → GeoResult) (enabled : Bool)
    (prev : PrevIndex) (cache : GeocodeCache) : List Route × GeocodeCache :=
  match web.fetchPage EMPLOYEE_TRANSPORT_URL with
  | none => ([], cache)
  | some page =>
    let pdf_links := _extract_pdf_links page.anchors EMPLOYEE_TRANSPORT_URL.data
    if pdf_links.isEmpty then ([], cache)
    else processPdfLinks web geo enabled prev pdf_links cache

structure FoundPage where
  url : String
  wroCommon : Bool

/-- The HTML-based collection collaborators inside `scrape_all`:
`findPages` models `find_route_pages` (network discovery per carrier
sub-site) and `parsePage` models `parse_route_page_with_flag` (`none` is
a page with no stop rows or a caught per-page exception). -/
structure HtmlOracle where
  findPages : String → List FoundPage
  parsePage : String → String → Bool → Option Route

/-- The per-sub HTML loop of `scrape_all` (scrape_transport_fc.py:550-566)
with its `seen_wro_common` alias skipping. -/
def htmlPhase (oracle : HtmlOracle) : List Route :=
  (FC_SUBS.foldl (fun acc sub =>
    if acc.2 && WRO_COMMON.contains sub then acc
    else
      (oracle.findPages sub).foldl (fun acc2 p =>
        match oracle.parsePage p.url sub p.wroCommon with
        | some data => (acc2.1 ++ [data], acc2.2 || p.wroCommon)
        | none => acc2) acc) (([] : List Route), false)).1

/-- Embedding of `scrape_all` (scrape_transport_fc.py:542).  The third
component records whether the HTML-based collection loop ran. -/
def scrape_all (web : Web) (geo : String → GeoResult) (enabled : Bool)
    (oracle : HtmlOracle) (prev : PrevIndex) (cache : GeocodeCache) :
    List Route × GeocodeCache × Bool :=
  let pdf := scrape_employee_transport_pdfs web geo enabled prev cache
  if !pdf.1.isEmpty then (pdf.1, pdf.2, false)
  else (htmlPhase oracle, pdf.2, true)

/-! ## Snapshot diff & export (`__main__`, scrape_transport_fc.py:622-743)

The persisted files are collaborators: the embedding carries the
snapshot file's bytes abstractly and takes the JSON decode/encode
functions as parameters.  An uncaught `TypeError` (from `round(float
(None), 6)` on a null coordinate reaching `make_stop_key`) is modelled as
`none` threaded out of the key computations; it aborts the run before
any further write. -/

def DUPLICATE_WRO_BY_FC : Bool := false

/-- `round(·, 6)`.  Python rounds half-to-even on binary floats; the
model rounds half-up on exact rationals — the two agree everywhere except
at exact `5e-7` ties, which never arise in this development. -/
def round6 (q : ℚ) : ℚ := (round (q * 1000000) : ℤ) / 1000000

abbrev StopKey := String × String × String × ℚ × ℚ

/-- Embedding of `make_stop_key` (scrape_transport_fc.py:584); `none`
models the uncaught `TypeError` that `float(None)` raises on a row with a
null coordinate. -/
def make_stop_key (s : SnapStop) : Option StopKey :=
  match s.lat, s.lon with
  | some la, some lo => some (s.fc, s.route_slug, s.stop_name, round6 la, round6 lo)
  | _, _ => none

/-- Embedding of `make_route_key` (scrape_transport_fc.py:593). -/
def make_route_key (fc route_slug : String) : String × String := (fc, route_slug)

/-- Embedding of `dedupe_stops` (scrape_transport_fc.py:596), threading
the possible `TypeError` of the key computation. -/
def dedupe_stops : List SnapStop → List StopKey → Option (List SnapStop)
  | [], _ => some []
  | s :: ss, seen =>
    match make_stop_key s with
    | none => none
    | some k =>
      if seen.contains k then dedupe_stops ss seen
      else (dedupe_stops ss (k :: seen)).map (fun out => s :: out)

/-- Embedding of `duplicate_wro_if_needed` (scrape_transport_fc.py:607);
`DUPLICATE_WRO_BY_FC` is the source's constant `False`. -/
def duplicate_wro_if_needed (stops_list : List SnapStop) : List SnapStop :=
  if !DUPLICATE_WRO_BY_FC then stops_list
  else stops_list.foldr (fun s acc =>
    if s.fc == "WRO" then
      (["WRO1", "WRO2", "WRO3", "WRO4"].map (fun fc =>
        { s with fc := fc,
                 route_slug := slugify (String.mk (lowerStr fc.data) ++ "-" ++ s.route) })) ++ acc
    else s :: acc) []

def strLt (a b : List Char) : Bool := strLe a b && !(a == b)

def qLe (a b : ℚ) : Bool := decide (a ≤ b)

/-- Lexicographic order on stop keys (Python tuple comparison). -/
def stopKeyLe (a b : StopKey) : Bool :=
  if a.1 ≠ b.1 then strLt a.1.data b.1.data
  else if a.2.1 ≠ b.2.1 then strLt a.2.1.data b.2.1.data
  else if a.2.2.1 ≠ b.2.2.1 then strLt a.2.2.1.data b.2.2.1.data
  else if a.2.2.2.1 ≠ b.2.2.2.1 then decide (a.2.2.2.1 < b.2.2.2.1)
  else qLe a.2.2.2.2 b.2.2.2.2

def routeKeyLe (a b : String × String) : Bool :=
  if a.1 ≠ b.1 then strLt a.1.data b.1.data else strLe a.2.data b.2.data

/-- The `all_stops.sort(key=_sort_key)` step; `_sort_key` is the same
tuple as `make_stop_key`, so the key computation can raise the same
`TypeError` (unreachable after a successful dedupe). -/
def sortStops (l : List SnapStop) : Option (List SnapStop) :=
  if l.all (fun s => (make_stop_key s).isSome) then
    some (pySorted (fun a b =>
      match make_stop_key a, make_stop_key b with
      | some ka, some kb => stopKeyLe ka kb
      | _, _ => true) l)
  else none

/-- The parsed previous snapshot file: `truthy` is the Python truthiness
of the loaded JSON value, `stops` its `"stops"` member when the value is
a dict (else `none`). -/
structure PrevWrapper where
  truthy : Bool
  stops : Option (List SnapStop)
deriving DecidableEq

structure RouteKeyRec where
  fc : String
  route_slug : String
deriving DecidableEq, Repr

/-- The record `find_by_stop_key` rebuilds for the diff report. -/
structure StopRec where
  fc : String
  route : String
  route_slug : String
  stop_name : String
  lat : Option ℚ
  lon : Option ℚ
  source : String
  url : String
deriving DecidableEq, Repr

/-- The persisted `changes.json` object. -/
structure Changes where
  generated : ℚ
  routes_total_new : Nat
  stops_total_new : Nat
  new_routes : List RouteKeyRec
  removed_routes : List RouteKeyRec
  new_stops : List (Option StopRec)
  removed_stops : List (Option StopRec)
deriving DecidableEq

/-- Embedding of `find_by_stop_key` (scrape_transport_fc.py:711). -/
def find_by_stop_key (pool : List SnapStop) (k : StopKey) : Option StopRec :=
  (pool.find? (fun s => make_stop_key s == some k)).map (fun s =>
    ⟨s.fc, s.route, s.route_slug, s.stop_name, s.lat, s.lon, s.source, s.url⟩)

/-- `len({make_route_key(...) for s in prev}) if prev else 0`
(scrape_transport_fc.py:677). -/
def prevRouteTotal (prev : Option (List SnapStop)) : Nat :=
  match prev with
  | some (s :: ss) =>
    (dedupFirst ((s :: ss).map (fun x => make_route_key x.fc x.route_slug))).length
  | _ => 0

/-- `len(prev) if prev else 0` (scrape_transport_fc.py:678). -/
def prevStopTotal (prev : Option (List SnapStop)) : Nat :=
  match prev with
  | some (s :: ss) => (s :: ss).length
  | _ => 0

/-- The end state of one `__main__` run past the collection phase:
the snapshot file's bytes, the diff report (if one was written), and
whether the run died on an uncaught exception. -/
structure MainResult where
  dataFile : Option String
  changesFile : Option Changes
  crashed : Bool
deriving DecidableEq

/-- The set-difference diff of `__main__` (scrape_transport_fc.py:698-733),
given that all key computations succeed. -/
def diffChanges (now : ℚ) (all_stops prevList : List SnapStop)
    (prevKeys newKeys : List StopKey) : Changes :=
  let addedStop := pySorted stopKeyLe (newKeys.filter (fun k => !prevKeys.contains k))
  let removedStop := pySorted stopKeyLe (prevKeys.filter (fun k => !newKeys.contains k))
  let prevRoute := dedupFirst (prevList.map (fun s => make_route_key s.fc s.route_slug))
  let newRoute := dedupFirst (all_stops.map (fun s => make_route_key s.fc s.route_slug))
  let addedRoute := pySorted routeKeyLe (newRoute.filter (fun k => !prevRoute.contains k))
  let removedRoute := pySorted routeKeyLe (prevRoute.filter (fun k => !newRoute.contains k))
  { generated := now
    routes_total_new := newRoute.length
    stops_total_new := all_stops.length
    new_routes := addedRoute.map (fun k => ⟨k.1, k.2⟩)
    removed_routes := removedRoute.map (fun k => ⟨k.1, k.2⟩)
    new_stops := addedStop.map (fun k => find_by_stop_key all_stops k)
    removed_stops := removedStop.map (fun k => find_by_stop_key prevList k) }

/-- Embedding of the diff-and-export tail of `__main__`
(scrape_transport_fc.py:640-743), from the collected routes onward:
flatten routes into rows, dedupe, (identity) WRO fan-out, sort; when no
stop survived, keep the previous snapshot bytes untouched and — when the
previous wrapper is truthy — write a no-change diff report computed from
the previous rows; otherwise write the new snapshot and the diff against
the previous rows (when the previous `stops` member is present, even
empty). -/
def runDiffExport (prevBytes : Option String) (decode : String → Option PrevWrapper)
    (encode : ℚ → List SnapStop → String) (routes : List Route) (now : ℚ) : MainResult :=
  let prev_wrapper : Option PrevWrapper := prevBytes.bind decode
  let prev : Option (List SnapStop) :=
    match prev_wrapper with
    | some w => if w.truthy then w.stops else none
    | none => none
  let all_stops0 : List SnapStop := routes.foldr (fun r acc =>
    r.stops.map (fun s =>
      (⟨r.fc, r.route, r.route_slug, r.source,
        s.stop_name, s.lat, s.lon, s.url, s.context_times⟩ : SnapStop)) ++ acc) []
  match dedupe_stops all_stops0 [] with
  | none => ⟨prevBytes, none, true⟩
  | some deduped =>
    match sortStops (duplicate_wro_if_needed deduped) with
    | none => ⟨prevBytes, none, true⟩
    | some all_stops =>
      if all_stops.isEmpty then
        match prev_wrapper with
        | some w =>
          if w.truthy then
            ⟨prevBytes,
             some ⟨now, prevRouteTotal prev, prevStopTotal prev, [], [], [], []⟩,
             false⟩
          else ⟨prevBytes, none, false⟩
        | none => ⟨prevBytes, none, false⟩
      else
        let dataBytes := encode now all_stops
        match prev with
        | none =>
          ⟨some dataBytes,
           some ⟨now,
             (dedupFirst (all_stops.map (fun s => make_route_key s.fc s.route_slug))).length,
             all_stops.length, [], [], [], []⟩,
           false⟩
        | some prevList =>
          match prevList.mapM make_stop_key, all_stops.mapM make_stop_key with
          | some prevKeysAll, some newKeysAll =>
            ⟨some dataBytes,
             some (diffChanges now all_stops prevList
               (dedupFirst prevKeysAll) (dedupFirst newKeysAll)),
             false⟩
          | _, _ => ⟨some dataBytes, none, true⟩

/-! ## Concrete instances used in witnesses and counterexamples -/

/-- A geocode cache holding one negative entry (the shape the source
writes after a failed lookup). -/
def negCacheEx : GeocodeCache := [("przystanek centralny", ⟨none, none⟩)]

def exPdfUrl : String := "https://transport-fc.pl/files/linia.pdf"

def exEmployeePage : Page := ⟨[⟨"Linia", exPdfUrl⟩], "<html>"⟩

/-- A concrete web: the employee-transport page links one PDF whose text
is the single stop line `"Foo Bar Street"`. -/
def exWeb : Web :=
  ⟨fun u => if u = EMPLOYEE_TRANSPORT_URL then some exEmployeePage else none,
   fun u => if u = exPdfUrl then some "Foo Bar Street" else none⟩

def exNegCache : GeocodeCache := [("foo bar street", ⟨none, none⟩)]

/-- An HTML oracle that would be visible if it ran (it is not reached in
the C9 witness). -/
def exOracle : HtmlOracle := ⟨fun _ => [], fun _ _ _ => none⟩

/-- Two anchors with the same URL and different titles (C4). -/
def c4Anchors : List Anchor := [⟨"A", "http://h/x"⟩, ⟨"B", "http://h/x"⟩]

/-- A web where every fetch succeeds with an empty page (C10 witness). -/
def c10Web : String → Option Page := fun _ => some ⟨[], ""⟩

/-- A previous snapshot row for the C3 witness. -/
def c3PrevStop : SnapStop :=
  ⟨"WRO", "Linia 1", "wro-linia-1", "http://x", "Rynek", none, none, "http://x", []⟩

def c3Wrapper : PrevWrapper := ⟨true, some [c3PrevStop]⟩

def c3Decode : String → Option PrevWrapper :=
  fun b => if b = "PREV" then some c3Wrapper else none

def c3Encode : ℚ → List SnapStop → String := fun _ _ => "NEW"

/-! # Theorems

General helper lemmas first, then one theorem per specification claim
(with witnesses/counterexamples where called for). -/

theorem parse_qs_first_nil (k : List Char) : parse_qs_first [] k = none := by
  simp [parse_qs_first, splitOnCh, splitFirst, List.findSome?]

theorem findSome?_prop {α β : Type} (f : α → Option β) (P : β → Prop)
    (hf : ∀ a b, f a = some b → P b) :
    ∀ {l : List α} {b : β}, l.findSome? f = some b → P b := by
  intro l
  induction l with
  | nil => intro b h; simp [List.findSome?] at h
  | cons a l ih =>
    intro b h
    rw [List.findSome?_cons] at h
    cases hfa : f a with
    | some c =>
      simp only [hfa, Option.some.injEq] at h
      exact h ▸ hf a c hfa
    | none =>
      simp only [hfa] at h
      exact ih h

/-- `parse_qs` never returns an empty value (blank values are dropped). -/
theorem parse_qs_first_ne_empty {q k v : List Char}
    (h : parse_qs_first q k = some v) : v.isEmpty = false := by
  unfold parse_qs_first at h
  refine findSome?_prop _ (fun v => v.isEmpty = false) (fun part b hb => ?_) h
  revert hb
  split
  · rename_i hc
    intro hb
    obtain rfl : pqDecode (splitFirst '=' part).2 = b := by injection hb
    have h2 := (Bool.and_eq_true _ _).mp hc |>.2
    simp only [pqDecode]
    cases hsp : (splitFirst '=' part).2 with
    | nil => rw [hsp] at h2; simp at h2
    | cons c cs => simp
  · intro hb; exact absurd hb (by simp)

theorem fragSearch_nil : fragSearch [] = none := rfl

/-- The source's `if parts.query:` guard is invisible in the result: an
empty query makes the query tier fail anyway, and the `if mlat and mlon`
nonemptiness check is subsumed by `parse_qs` dropping blank values. -/
theorem queryTier_guard_eq (q : List Char) :
    (if q.isEmpty then none else queryPairTier q) = queryPairTierSpec q := by
  by_cases hq : q.isEmpty
  · have hq0 : q = [] := by simpa using hq
    subst hq0
    simp [queryPairTierSpec, parse_qs_first_nil]
  · rw [if_neg (by simpa using hq)]
    unfold queryPairTier queryPairTierSpec
    cases hma : parse_qs_first q (String.data "mlat") with
    | none => rfl
    | some a =>
      cases hmb : parse_qs_first q (String.data "mlon") with
      | none => rfl
      | some b =>
        simp [parse_qs_first_ne_empty hma, parse_qs_first_ne_empty hmb]

/-- Likewise for `if parts.fragment:`. -/
theorem fragTier_guard_eq (f : List Char) :
    (if f.isEmpty then none else fragPairTier f) = fragPairTier f := by
  by_cases hf : f.isEmpty
  · have hf0 : f = [] := by simpa using hf
    subst hf0
    simp [fragPairTier, fragSearch_nil]
  · rw [if_neg (by simpa using hf)]

/-- C7: for every href, `extract_latlon` first tries the `mlat`/`mlon`
query parameters (accepting `.` or `,` as decimal separator and
returning the exact parsed pair), and only when those are absent or
malformed falls back to the `map=<zoom>/<lat>/<lon>` fragment pattern,
returning the first match found; malformed numerics yield `none` rather
than an error.  Stated as: the source extractor coincides everywhere
with `extract_from_link_spec`, the claim-shaped tiered description
(which is total, so no input raises). -/
theorem c7_extract_latlon_follows_spec (href : String) :
    extract_latlon href = extract_from_link_spec href := by
  simp only [extract_latlon, extract_from_link_spec]
  generalize href.data.filter (fun c => !isWsCh c) = s
  rw [queryTier_guard_eq, fragTier_guard_eq]
  cases queryPairTierSpec (urlQuery s) with
  | none => simp [Option.orElse]
  | some p => simp [Option.orElse]

/-- C8: the PDF text line `"08:15 Rynek Główny 51.1100,17.0300"` yields
exactly one stop candidate, with `context_times = ["08:15"]`, inline
coordinates `(51.11, 17.03)`, and stop name exactly `"Rynek Główny"`
(in particular containing it, with no residual digits: both the time
token and the matched coordinate substring are removed). -/
theorem c8_pdf_line_example :
    parse_pdf_stop_lines "08:15 Rynek Główny 51.1100,17.0300" =
      [⟨"Rynek Główny", ["08:15"], some ((5111 : ℚ)/100, (1703 : ℚ)/100)⟩] := by
  have h1 : pyFloat? (commaToDot (String.data "51.1100")) = some ((5111 : ℚ)/100) := by
    simp +decide [pyFloat?, commaToDot, pyStrip, stripBy, splitOnCh, parseDigits, isWsCh]
    norm_num
  have h2 : pyFloat? (commaToDot (String.data "17.0300")) = some ((1703 : ℚ)/100) := by
    simp +decide [pyFloat?, commaToDot, pyStrip, stripBy, splitOnCh, parseDigits, isWsCh]
    norm_num
  have hsearch :
      LATLON_search (pyStrip (squashWs
        (String.data "08:15 Rynek Główny 51.1100,17.0300"))) =
        some (String.data "51.1100", String.data "17.0300") := by decide
  have hext :
      extract_latlon_from_text (pyStrip (squashWs
        (String.data "08:15 Rynek Główny 51.1100,17.0300"))) =
        some ((5111 : ℚ)/100, (1703 : ℚ)/100) := by
    simp only [extract_latlon_from_text, hsearch, h1, h2]
  rw [← hext]
  rfl

/-- C6: a present inline coordinate pair is returned unconditionally by
the resolver — for every prior index, cache, geocoder behaviour and
enablement flag, the result is exactly the inline pair and the cache is
left untouched (so neither the prior index nor the geocoder can
influence the outcome). -/
theorem c6_resolver_inline_tier (stop_name : String) (fc_label : Option String)
    (prev_index : PrevIndex) (cache : GeocodeCache) (p : ℚ × ℚ)
    (geo : String → GeoResult) (enabled : Bool) :
    resolve_stop_coordinates stop_name fc_label prev_index cache (some p) geo enabled =
      (some (some p.1, some p.2), cache) := rfl

/-- C2 (failing part): on a negative-cache hit, `geocode_stop` performs
no network call (third component `false`) but returns the truthy pair
`(None, None)` — i.e. `some (none, none)` — instead of `none`, because
the negative entry is itself a dict with `lat`/`lon` keys and so
satisfies the cache-hit shape guard.  This contradicts both the claim
and the function's own `tuple[float, float] | None` annotation. -/
theorem c2_negative_cache_returns_pair :
    geocode_stop "Przystanek  Centralny" negCacheEx (fun _ => GeoResult.empty) true =
      ⟨some (none, none), negCacheEx, false⟩ := by decide

/-- C1 (violation): with no inline coordinates, no prior-index entry and
only a negative geocode-cache entry for its normalized name, the stop
`"Foo Bar Street"` is *not* dropped: the PDF collection emits it into
its route with null lat/lon (the resolver's `(None, None)` pair is
truthy, so `if not coords: continue` does not fire).  Downstream,
`make_stop_key` would then raise `TypeError` on `float(None)`. -/
theorem c1_negative_cache_stop_emitted_with_null_coords :
    (scrape_employee_transport_pdfs exWeb (fun _ => GeoResult.empty) true [] exNegCache).1 =
      [⟨"UNKNOWN", "Foo Bar Street", "unknown-foo-bar-street", exPdfUrl,
        [⟨"Foo Bar Street", none, none, exPdfUrl, []⟩]⟩] := by decide

/-- C9: whenever the PDF-based collection yields at least one route,
`scrape_all` returns exactly those PDF routes (with the cache the PDF
phase produced) and the HTML-based collection does not run at all. -/
theorem c9_pdf_preempts_html (web : Web) (geo : String → GeoResult) (enabled : Bool)
    (oracle : HtmlOracle) (prev : PrevIndex) (cache : GeocodeCache)
    (h : (scrape_employee_transport_pdfs web geo enabled prev cache).1.isEmpty = false) :
    scrape_all web geo enabled oracle prev cache =
      ((scrape_employee_transport_pdfs web geo enabled prev cache).1,
       (scrape_employee_transport_pdfs web geo enabled prev cache).2, false) := by
  unfold scrape_all
  simp [h]

theorem c9_pdf_preempts_html_witness :
    (scrape_employee_transport_pdfs exWeb (fun _ => GeoResult.empty) true [] exNegCache).1.isEmpty
        = false ∧
      scrape_all exWeb (fun _ => GeoResult.empty) true exOracle [] exNegCache =
        ((scrape_employee_transport_pdfs exWeb (fun _ => GeoResult.empty) true [] exNegCache).1,
         (scrape_employee_transport_pdfs exWeb (fun _ => GeoResult.empty) true [] exNegCache).2,
         false) :=
  ⟨by decide, c9_pdf_preempts_html exWeb (fun _ => GeoResult.empty) true exOracle [] exNegCache
    (by decide)⟩


theorem pyUpsert_keys (m : List (String × Link)) (k : String) (v : Link) :
    (pyUpsert m k v).map Prod.fst =
      if (m.map Prod.fst).contains k then m.map Prod.fst else m.map Prod.fst ++ [k] := by
  induction m with
  | nil => simp [pyUpsert]
  | cons e m ih =>
    by_cases he : e.1 = k
    · simp [pyUpsert, he, List.contains_cons]
    · simp only [pyUpsert, if_neg he, List.map_cons, ih, List.contains_cons]
      have hbe : (k == e.1) = false := by simpa using fun h => he h.symm
      by_cases hc : (m.map Prod.fst).contains k
      · rw [if_pos hc, if_pos (by rw [hbe, hc]; rfl)]
      · rw [if_neg hc, if_neg (by rw [hbe, Bool.false_or]; exact hc)]
        simp

theorem pyUpsert_inv (m : List (String × Link)) (v : Link)
    (h : ∀ e ∈ m, e.1 = e.2.url) :
    ∀ e ∈ pyUpsert m v.url v, e.1 = e.2.url := by
  induction m with
  | nil => intro e he; simp [pyUpsert] at he; simp [he]
  | cons a m ih =>
    intro e he
    by_cases ha : a.1 = v.url
    · simp [pyUpsert, ha] at he
      rcases he with he | he
      · simp [he]
      · exact h e (by simp [he])
    · simp [pyUpsert, ha] at he
      rcases he with he | he
      · exact h e (by simp [he])
      · exact ih (fun x hx => h x (by simp [hx])) e he

theorem pyUpsert_nodup (m : List (String × Link)) (k : String) (v : Link)
    (h : (m.map Prod.fst).Nodup) : ((pyUpsert m k v).map Prod.fst).Nodup := by
  rw [pyUpsert_keys]
  by_cases hc : (m.map Prod.fst).contains k
  · rw [if_pos hc]; exact h
  · rw [if_neg hc]
    rw [List.nodup_append]
    refine ⟨h, by simp, ?_⟩
    intro x hx hk
    simp only [List.mem_singleton] at hk
    subst hk
    exact absurd ((List.elem_iff).mpr hx) (by simpa using hc)

theorem map_replace_id (ws : List Link) (k : String) (v : Link)
    (h : ∀ w ∈ ws, w.url ≠ k) :
    ws.map (fun w => if w.url == k then v else w) = ws := by
  induction ws with
  | nil => rfl
  | cons w ws ih =>
    simp only [List.map_cons]
    rw [if_neg (by simpa using h w (by simp)), ih (fun x hx => h x (by simp [hx]))]

theorem pyUpsert_values (m : List (String × Link)) (k : String) (v : Link)
    (hinv : ∀ e ∈ m, e.1 = e.2.url) (hnd : (m.map Prod.fst).Nodup) :
    (pyUpsert m k v).map Prod.snd =
      if (m.map Prod.fst).contains k then
        (m.map Prod.snd).map (fun w => if w.url == k then v else w)
      else m.map Prod.snd ++ [v] := by
  induction m with
  | nil => simp [pyUpsert]
  | cons e m ih =>
    have hek : e.1 = e.2.url := hinv e (by simp)
    have hinv' : ∀ x ∈ m, x.1 = x.2.url := fun x hx => hinv x (by simp [hx])
    have hnd' : (m.map Prod.fst).Nodup := (List.nodup_cons.mp (by simpa using hnd)).2
    by_cases he : e.1 = k
    · have hnotin : e.1 ∉ m.map Prod.fst := (List.nodup_cons.mp (by simpa using hnd)).1
      have hcontains : ((e.1 :: m.map Prod.fst).contains k) = true := by
        simp [List.contains_cons, he]
      simp only [pyUpsert, if_pos he, List.map_cons]
      rw [if_pos (by simpa using hcontains)]
      rw [if_pos (by rw [← hek, he]; exact beq_self_eq_true _)]
      have : (m.map Prod.snd).map (fun w => if w.url == k then v else w) = m.map Prod.snd := by
        refine map_replace_id _ _ _ (fun w hw => ?_)
        rcases List.mem_map.mp hw with ⟨ew, hew, rfl⟩
        intro hurl
        exact hnotin (by
          rw [← he] at hurl
          have : ew.1 = e.1 := by rw [hinv ew (by simp [hew]), hurl]
          exact this ▸ List.mem_map.mpr ⟨ew, hew, rfl⟩)
      rw [this]
    · simp only [pyUpsert, if_neg he, List.map_cons, ih hinv' hnd', List.contains_cons]
      have hbe : (k == e.1) = false := by simpa using fun h => he h.symm
      by_cases hc : (m.map Prod.fst).contains k
      · rw [if_pos hc, if_pos (by rw [hbe, hc]; rfl)]
        rw [if_neg (show ¬((e.2.url == k) = true) from by rw [← hek]; simpa using he)]
      · rw [if_neg hc, if_neg (by rw [hbe, Bool.false_or]; exact hc)]
        rfl


theorem dedupFirstAux_cons {α : Type} [BEq α] (seen : List α) (a : α) (l : List α) :
    dedupFirstAux seen (a :: l) =
      if seen.contains a then dedupFirstAux seen l
      else a :: dedupFirstAux (a :: seen) l := rfl

theorem dedupFirstAux_append_singleton {α : Type} [BEq α] [LawfulBEq α]
    (A : List α) (u : α) :
    ∀ seen : List α,
      dedupFirstAux seen (A ++ [u]) =
        if (seen.contains u || A.contains u) then dedupFirstAux seen A
        else dedupFirstAux seen A ++ [u] := by
  induction A with
  | nil =>
    intro seen
    rw [List.nil_append, dedupFirstAux_cons]
    by_cases hs : seen.contains u
    · rw [if_pos hs, if_pos (by rw [hs]; rfl)]
    · have hs2 : u ∉ seen := fun hm => hs (List.elem_iff.mpr hm)
      rw [if_neg hs, if_neg (by simp [hs2])]
      rfl
  | cons a A ih =>
    intro seen
    rw [List.cons_append, dedupFirstAux_cons, dedupFirstAux_cons]
    by_cases ha : seen.contains a
    · rw [if_pos ha, if_pos ha, ih seen, List.contains_cons]
      by_cases hu : u = a
      · rw [if_pos (by rw [hu, ha]; rfl), if_pos (by rw [hu, ha]; simp)]
      · rw [show (u == a) = false from by simpa using hu, Bool.false_or]
    · rw [if_neg ha, if_neg ha, ih (a :: seen)]
      have hC : ((a :: seen).contains u || A.contains u)
          = (seen.contains u || (a :: A).contains u) := by
        rw [List.contains_cons, List.contains_cons]
        cases (u == a) <;> cases seen.contains u <;> cases A.contains u <;> rfl
      rw [hC]
      by_cases hrest : (seen.contains u || (a :: A).contains u)
      · rw [if_pos hrest, if_pos hrest]
      · rw [if_neg hrest, if_neg hrest]
        rfl

theorem contains_eq_false_iff {α : Type} [BEq α] [LawfulBEq α] (l : List α) (x : α) :
    l.contains x = false ↔ x ∉ l := by
  constructor
  · intro h hm
    rw [show l.contains x = List.elem x l from rfl, List.elem_iff.mpr hm] at h
    exact Bool.noConfusion h
  · intro h
    cases he : l.contains x
    · rfl
    · exact absurd (List.elem_iff.mp he) h

theorem mem_dedupFirstAux {α : Type} [BEq α] [LawfulBEq α] (x : α) :
    ∀ (l seen : List α), x ∈ dedupFirstAux seen l ↔ x ∈ l ∧ seen.contains x = false := by
  intro l
  induction l with
  | nil => intro seen; simp [dedupFirstAux]
  | cons a l ih =>
    intro seen
    by_cases ha : seen.contains a
    · rw [dedupFirstAux, if_pos ha, ih seen]
      constructor
      · rintro ⟨h1, h2⟩; exact ⟨by simp [h1], h2⟩
      · rintro ⟨h1, h2⟩
        rcases List.mem_cons.mp h1 with rfl | h1
        · exact absurd ha (by rw [h2]; simp)
        · exact ⟨h1, h2⟩
    · rw [dedupFirstAux, if_neg ha]
      rw [List.mem_cons, ih (a :: seen), List.contains_cons]
      constructor
      · rintro (rfl | ⟨h1, h2⟩)
        · exact ⟨by simp, by rw [contains_eq_false_iff]; exact fun hm => ha (List.elem_iff.mpr hm)⟩
        · rcases Bool.or_eq_false_iff.mp h2 with ⟨hxa, hxs⟩
          exact ⟨by simp [h1], hxs⟩
      · rintro ⟨h1, h2⟩
        by_cases hxa : x = a
        · exact Or.inl hxa
        · rcases List.mem_cons.mp h1 with rfl | h1
          · exact Or.inl rfl
          · refine Or.inr ⟨h1, ?_⟩
            rw [show (x == a) = false from by simpa using hxa, Bool.false_or, h2]

theorem mem_dedupFirst {α : Type} [BEq α] [LawfulBEq α] (x : α) (l : List α) :
    x ∈ dedupFirst l ↔ x ∈ l := by
  rw [dedupFirst, mem_dedupFirstAux]
  simp [List.contains_cons]

theorem contains_dedupFirst {α : Type} [BEq α] [LawfulBEq α] (u : α) (l : List α) :
    (dedupFirst l).contains u = l.contains u := by
  cases hc : l.contains u
  · have h1 : u ∉ l := (contains_eq_false_iff _ _).mp hc
    exact (contains_eq_false_iff _ _).mpr (fun hm => h1 ((mem_dedupFirst u l).mp hm))
  · have h1 : u ∈ l := List.elem_iff.mp hc
    exact List.elem_iff.mpr ((mem_dedupFirst u l).mpr h1)


theorem filterMap_congr_mem {α β : Type} {f g : α → Option β} :
    ∀ {l : List α}, (∀ x ∈ l, f x = g x) → l.filterMap f = l.filterMap g := by
  intro l
  induction l with
  | nil => intro _; rfl
  | cons a l ih =>
    intro h
    rw [List.filterMap_cons, List.filterMap_cons, h a (by simp),
      ih (fun x hx => h x (by simp [hx]))]

theorem lastWithUrl_append_singleton (xs : List Link) (x : Link) (u : String) :
    lastWithUrl (xs ++ [x]) u = if x.url == u then some x else lastWithUrl xs u := by
  unfold lastWithUrl
  rw [List.filter_append]
  by_cases h : (x.url == u) = true
  · have hx : List.filter (fun y => y.url == u) [x] = [x] := by
      simp only [List.filter, h]
    rw [if_pos h, hx, List.getLast?_concat]
  · have hx : List.filter (fun y => y.url == u) [x] = [] := by
      simp only [List.filter, Bool.eq_false_iff.mpr h]
    rw [if_neg h, hx, List.append_nil]

theorem lastWithUrl_url {xs : List Link} {u : String} {y : Link}
    (h : lastWithUrl xs u = some y) : y.url = u := by
  have hm := List.mem_of_mem_getLast? h
  simpa using (List.mem_filter.mp hm).2

theorem lastWithUrl_isSome {xs : List Link} {u : String}
    (h : u ∈ xs.map Link.url) : (lastWithUrl xs u).isSome = true := by
  unfold lastWithUrl
  rw [List.getLast?_isSome]
  rcases List.mem_map.mp h with ⟨y, hy, rfl⟩
  intro hnil
  have hmem : y ∈ List.filter (fun z => z.url == y.url) xs :=
    List.mem_filter.mpr ⟨hy, by simp⟩
  rw [hnil] at hmem
  exact absurd hmem (List.not_mem_nil y)

theorem pyDictByUrl_append_singleton (xs : List Link) (x : Link) :
    pyDictByUrl (xs ++ [x]) = pyUpsert (pyDictByUrl xs) x.url x := by
  unfold pyDictByUrl
  rw [List.foldl_append]
  rfl


theorem dedupFirst_append_singleton {α : Type} [BEq α] [LawfulBEq α]
    (A : List α) (u : α) :
    dedupFirst (A ++ [u]) =
      if A.contains u then dedupFirst A else dedupFirst A ++ [u] := by
  unfold dedupFirst
  rw [dedupFirstAux_append_singleton, List.contains_nil, Bool.false_or]

theorem pyDictByUrl_spec (xs : List Link) :
    (pyDictByUrl xs).map Prod.fst = dedupFirst (xs.map Link.url) ∧
    (∀ e ∈ pyDictByUrl xs, e.1 = e.2.url) ∧
    ((pyDictByUrl xs).map Prod.fst).Nodup ∧
    (pyDictByUrl xs).map Prod.snd =
      (dedupFirst (xs.map Link.url)).filterMap (lastWithUrl xs) := by
  induction xs using List.reverseRecOn with
  | nil => refine ⟨rfl, by intro e he; simp [pyDictByUrl] at he, by simp [pyDictByUrl], rfl⟩
  | append_singleton xs x ih =>
    obtain ⟨ihk, ihinv, ihnd, ihv⟩ := ih
    have hup := pyDictByUrl_append_singleton xs x
    have hcontains :
        (List.map Prod.fst (pyDictByUrl xs)).contains x.url
          = (xs.map Link.url).contains x.url := by
      rw [ihk, contains_dedupFirst]
    have hkeys :
        (pyDictByUrl (xs ++ [x])).map Prod.fst = dedupFirst ((xs ++ [x]).map Link.url) := by
      rw [hup, pyUpsert_keys, hcontains, List.map_append, List.map_singleton,
        dedupFirst_append_singleton, ihk]
    refine ⟨hkeys, ?_, ?_, ?_⟩
    · rw [hup]; exact pyUpsert_inv _ x ihinv
    · rw [hup]; exact pyUpsert_nodup _ _ _ ihnd
    · rw [hup, pyUpsert_values _ _ _ ihinv ihnd, hcontains]
      rw [List.map_append, List.map_singleton, dedupFirst_append_singleton]
      by_cases hc : (xs.map Link.url).contains x.url
      · rw [if_pos hc, if_pos hc, ihv, List.map_filterMap]
        refine filterMap_congr_mem (fun u hu => ?_)
        have humem : u ∈ xs.map Link.url := (mem_dedupFirst u _).mp hu
        rw [lastWithUrl_append_singleton]
        by_cases hux : (x.url == u) = true
        · rw [if_pos hux]
          cases hlast : lastWithUrl xs u with
          | none =>
            have hsome := lastWithUrl_isSome humem
            rw [hlast] at hsome
            exact absurd hsome (by simp)
          | some y =>
            rw [Option.map_some']
            rw [show (y.url == x.url) = true from by
              rw [lastWithUrl_url hlast, show x.url = u from by simpa using hux]
              exact beq_self_eq_true u]
            rfl
        · rw [if_neg hux]
          cases hlast : lastWithUrl xs u with
          | none => rfl
          | some y =>
            rw [Option.map_some']
            rw [show (y.url == x.url) = false from by
              rw [lastWithUrl_url hlast]
              exact beq_eq_false_iff_ne.mpr
                (fun h => hux (by rw [h]; exact beq_self_eq_true _))]
            rfl
      · rw [if_neg hc, if_neg hc, ihv, List.filterMap_append]
        have hxnotin : x.url ∉ xs.map Link.url := (contains_eq_false_iff _ _).mp (by
          cases hcc : (xs.map Link.url).contains x.url
          · rfl
          · exact absurd hcc (by simpa using hc))
        have hone : List.filterMap (lastWithUrl (xs ++ [x])) [x.url] = [x] := by
          rw [List.filterMap_cons, lastWithUrl_append_singleton]
          rw [if_pos (beq_self_eq_true x.url)]
          rfl
        rw [hone]
        have hrest : (dedupFirst (xs.map Link.url)).filterMap (lastWithUrl (xs ++ [x]))
            = (dedupFirst (xs.map Link.url)).filterMap (lastWithUrl xs) := by
          refine filterMap_congr_mem (fun u hu => ?_)
          have humem : u ∈ xs.map Link.url := (mem_dedupFirst u _).mp hu
          rw [lastWithUrl_append_singleton]
          rw [if_neg (show ¬((x.url == u) = true) from fun hb => hxnotin (by
            rw [show x.url = u from by simpa using hb]; exact humem))]
        rw [hrest]


/-- C4 counterexample: for the document with two same-URL anchors titled
`"A"` then `"B"`, the link collector returns the *second* occurrence's
title, so "first occurrence's title wins" fails (the dict comprehension
`{x["url"]: x for x in out}` overwrites the value on every duplicate). -/
theorem c4_first_title_wins_counterexample :
    _links c4Anchors (String.data "http://h/") (String.data "h") =
        [⟨"B", "http://h/x"⟩] ∧
      _links c4Anchors (String.data "http://h/") (String.data "h") ≠
        [⟨"A", "http://h/x"⟩] := by decide

/-- C4 (amended): for every anchor list, base URL and host, `_links`
returns the same-host links deduplicated by resolved URL, where URLs
keep the original discovery order of their *first* occurrences and, for
each URL, the *last* occurrence's title wins. -/
theorem c4_links_dedup_order_and_last_title (anchors : List Anchor)
    (base host : List Char) :
    _links anchors base host =
      (dedupFirst ((linksRaw anchors base host).map Link.url)).filterMap
        (lastWithUrl (linksRaw anchors base host)) :=
  (pyDictByUrl_spec (linksRaw anchors base host)).2.2.2


theorem bfsEnqueue_fields (host : List Char) (depth : Nat) (u : String)
    (page : Page) (st2 : CrawlState) :
    (bfsEnqueue host depth u page st2).seen = st2.seen ∧
    (bfsEnqueue host depth u page st2).fetched = st2.fetched ∧
    ∃ extra : List (String × Nat),
      (bfsEnqueue host depth u page st2).enqueued = st2.enqueued ++ extra ∧
        (bfsEnqueue host depth u page st2).queue = st2.queue ++ extra ∧
        extra.all enqOk = true := by
  unfold bfsEnqueue
  by_cases hdepth : depth < MAX_DEPTH
  · rw [if_pos hdepth]
    refine ⟨rfl, rfl, (bfsNewLinks host u page st2).map (fun v => (v, depth + 1)), rfl, rfl, ?_⟩
    rw [List.all_eq_true]
    intro e he
    rcases List.mem_map.mp he with ⟨v, hv, rfl⟩
    have hfilter := List.of_mem_filter hv
    have hx : (!hasExcludedSegment v.data) = true := ((Bool.and_eq_true _ _).mp hfilter).2
    unfold enqOk
    rw [hx, decide_eq_true (Nat.succ_le_of_lt hdepth)]
    rfl
  · rw [if_neg hdepth]
    exact ⟨rfl, rfl, [], by simp, by simp, rfl⟩

theorem bfsProcessPage_fields (host : List Char) (depth : Nat) (u : String)
    (page : Page) (st1 : CrawlState) :
    (bfsProcessPage host depth u page st1).seen = st1.seen ∧
    (bfsProcessPage host depth u page st1).fetched = st1.fetched ∧
    ∃ extra : List (String × Nat),
      (bfsProcessPage host depth u page st1).enqueued = st1.enqueued ++ extra ∧
        (bfsProcessPage host depth u page st1).queue = st1.queue ++ extra ∧
        extra.all enqOk = true := by
  unfold bfsProcessPage
  by_cases hosm : _page_has_osm page
  · rw [if_pos hosm]
    exact bfsEnqueue_fields host depth u page _
  · rw [if_neg hosm]
    exact bfsEnqueue_fields host depth u page _

theorem bfsStep_inv (web : String → Option Page) (host : List Char) (st : CrawlState)
    (h : st.seen = st.fetched ∧ st.fetched.length ≤ MAX_PAGES_PER_HOST ∧
      st.enqueued.all enqOk = true) :
    ∀ st', (bfsStep web host st = .done st' ∨ bfsStep web host st = .cont st') →
      st'.seen = st'.fetched ∧ st'.fetched.length ≤ MAX_PAGES_PER_HOST ∧
        st'.enqueued.all enqOk = true := by
  obtain ⟨h1, h2, h3⟩ := h
  intro st' hstep'
  cases hq : st.queue with
  | nil =>
    have hstep : bfsStep web host st = .done st := by
      unfold bfsStep; rw [hq]
    rcases hstep' with h' | h' <;> rw [hstep] at h' <;> first
      | (injection h' with he; subst he; exact ⟨h1, h2, h3⟩)
      | exact absurd h' (by simp)
  | cons ud rest =>
    obtain ⟨url, depth⟩ := ud
    by_cases hguard : st.seen.length < MAX_PAGES_PER_HOST
    · by_cases hseen : st.seen.contains (String.mk (rstripSlash url.data))
      · have hstep : bfsStep web host st = .cont { st with queue := rest } := by
          simp only [bfsStep, hq]
          rw [if_pos hguard, if_pos hseen]
        rcases hstep' with h' | h' <;> rw [hstep] at h' <;> first
          | (injection h' with he; subst he; exact ⟨h1, h2, h3⟩)
          | exact absurd h' (by simp)
      · have hflen : st.fetched.length < MAX_PAGES_PER_HOST := h1 ▸ hguard
        have hmark :
            (bfsFetchMark st (String.mk (rstripSlash url.data)) rest).seen
                = (bfsFetchMark st (String.mk (rstripSlash url.data)) rest).fetched ∧
              (bfsFetchMark st (String.mk (rstripSlash url.data)) rest).fetched.length
                ≤ MAX_PAGES_PER_HOST ∧
              (bfsFetchMark st (String.mk (rstripSlash url.data)) rest).enqueued.all enqOk
                = true := by
          refine ⟨by simp [bfsFetchMark, h1], ?_, by simpa [bfsFetchMark] using h3⟩
          simp only [bfsFetchMark, List.length_append, List.length_singleton]
          exact Nat.succ_le_of_lt hflen
        cases hweb : web (String.mk (rstripSlash url.data)) with
        | none =>
          have hstep : bfsStep web host st =
              .cont (bfsFetchMark st (String.mk (rstripSlash url.data)) rest) := by
            simp only [bfsStep, hq]
            rw [if_pos hguard, if_neg hseen, hweb]
          rcases hstep' with h' | h' <;> rw [hstep] at h' <;> first
            | (injection h' with he; subst he; exact hmark)
            | exact absurd h' (by simp)
        | some page =>
          have hstep : bfsStep web host st =
              .cont (bfsProcessPage host depth (String.mk (rstripSlash url.data)) page
                (bfsFetchMark st (String.mk (rstripSlash url.data)) rest)) := by
            simp only [bfsStep, hq]
            rw [if_pos hguard, if_neg hseen, hweb]
          rcases hstep' with h' | h' <;> rw [hstep] at h' <;> first
            | (injection h' with he; subst he;
               obtain ⟨hm1, hm2, hm3⟩ := hmark
               obtain ⟨hs, hf, extra, henq, hqu, hall⟩ := bfsProcessPage_fields host depth
                 (String.mk (rstripSlash url.data)) page
                 (bfsFetchMark st (String.mk (rstripSlash url.data)) rest)
               refine ⟨by rw [hs, hf]; exact hm1, by rw [hf]; exact hm2, ?_⟩
               rw [henq, List.all_append]
               exact (Bool.and_eq_true _ _).mpr ⟨hm3, hall⟩)
            | exact absurd h' (by simp)
    · have hstep : bfsStep web host st = .done st := by
        simp only [bfsStep, hq]
        rw [if_neg hguard]
      rcases hstep' with h' | h' <;> rw [hstep] at h' <;> first
        | (injection h' with he; subst he; exact ⟨h1, h2, h3⟩)
        | exact absurd h' (by simp)


theorem bfsLoop_inv (web : String → Option Page) (host : List Char) :
    ∀ (fuel : Nat) (st : CrawlState),
      (st.seen = st.fetched ∧ st.fetched.length ≤ MAX_PAGES_PER_HOST ∧
        st.enqueued.all enqOk = true) →
      ((bfsLoop web host fuel st).seen = (bfsLoop web host fuel st).fetched ∧
        (bfsLoop web host fuel st).fetched.length ≤ MAX_PAGES_PER_HOST ∧
        (bfsLoop web host fuel st).enqueued.all enqOk = true) := by
  intro fuel
  induction fuel with
  | zero => intro st h; exact h
  | succ fuel ih =>
    intro st h
    rw [bfsLoop]
    cases hstep : bfsStep web host st with
    | done s => exact bfsStep_inv web host st h s (Or.inl hstep)
    | cont s => exact ih s (bfsStep_inv web host st h s (Or.inr hstep))


theorem bfsStep_fetched_mono (web : String → Option Page) (host : List Char)
    (st : CrawlState) :
    ∀ st', (bfsStep web host st = .done st' ∨ bfsStep web host st = .cont st') →
      ∀ x ∈ st.fetched, x ∈ st'.fetched := by
  intro st' hstep' x hx
  cases hq : st.queue with
  | nil =>
    have hstep : bfsStep web host st = .done st := by
      unfold bfsStep; rw [hq]
    rcases hstep' with h' | h' <;> rw [hstep] at h' <;> first
      | (injection h' with he; subst he; exact hx)
      | exact absurd h' (by simp)
  | cons ud rest =>
    obtain ⟨url, depth⟩ := ud
    by_cases hguard : st.seen.length < MAX_PAGES_PER_HOST
    · by_cases hseen : st.seen.contains (String.mk (rstripSlash url.data))
      · have hstep : bfsStep web host st = .cont { st with queue := rest } := by
          simp only [bfsStep, hq]
          rw [if_pos hguard, if_pos hseen]
        rcases hstep' with h' | h' <;> rw [hstep] at h' <;> first
          | (injection h' with he; subst he; exact hx)
          | exact absurd h' (by simp)
      · cases hweb : web (String.mk (rstripSlash url.data)) with
        | none =>
          have hstep : bfsStep web host st =
              .cont (bfsFetchMark st (String.mk (rstripSlash url.data)) rest) := by
            simp only [bfsStep, hq]
            rw [if_pos hguard, if_neg hseen, hweb]
          rcases hstep' with h' | h' <;> rw [hstep] at h' <;> first
            | (injection h' with he; subst he;
               simp only [bfsFetchMark]
               exact List.mem_append_left _ hx)
            | exact absurd h' (by simp)
        | some page =>
          have hstep : bfsStep web host st =
              .cont (bfsProcessPage host depth (String.mk (rstripSlash url.data)) page
                (bfsFetchMark st (String.mk (rstripSlash url.data)) rest)) := by
            simp only [bfsStep, hq]
            rw [if_pos hguard, if_neg hseen, hweb]
          rcases hstep' with h' | h' <;> rw [hstep] at h' <;> first
            | (injection h' with he; subst he;
               obtain ⟨hs, hf, extra, henq, hqu, hall⟩ := bfsProcessPage_fields host depth
                 (String.mk (rstripSlash url.data)) page
                 (bfsFetchMark st (String.mk (rstripSlash url.data)) rest)
               rw [hf]
               simp only [bfsFetchMark]
               exact List.mem_append_left _ hx)
            | exact absurd h' (by simp)
    · have hstep : bfsStep web host st = .done st := by
        simp only [bfsStep, hq]
        rw [if_neg hguard]
      rcases hstep' with h' | h' <;> rw [hstep] at h' <;> first
        | (injection h' with he; subst he; exact hx)
        | exact absurd h' (by simp)

theorem bfsLoop_fetched_mono (web : String → Option Page) (host : List Char) :
    ∀ (fuel : Nat) (st : CrawlState) (x : String),
      x ∈ st.fetched → x ∈ (bfsLoop web host fuel st).fetched := by
  intro fuel
  induction fuel with
  | zero => intro st x hx; exact hx
  | succ fuel ih =>
    intro st x hx
    rw [bfsLoop]
    cases hstep : bfsStep web host st with
    | done s => exact bfsStep_fetched_mono web host st s (Or.inl hstep) x hx
    | cont s => exact ih s x (bfsStep_fetched_mono web host st s (Or.inr hstep) x hx)

theorem bfsLoop_pending_fetched (web : String → Option Page) (host : List Char) :
    ∀ (pending : List (String × Nat)) (fuel : Nat) (st : CrawlState)
      (rest : List (String × Nat)),
      st.queue = pending ++ rest →
      st.seen = st.fetched →
      st.fetched.length + pending.length ≤ MAX_PAGES_PER_HOST →
      pending.length ≤ fuel →
      ∀ p ∈ pending,
        String.mk (rstripSlash p.1.data) ∈ (bfsLoop web host fuel st).fetched := by
  intro pending
  induction pending with
  | nil => intro fuel st rest _ _ _ _ p hp; exact absurd hp (List.not_mem_nil p)
  | cons q pending ih =>
    intro fuel st rest hqueue hsf hlen hfuel p hp
    obtain ⟨url, depth⟩ := q
    cases fuel with
    | zero => exact absurd hfuel (by simp)
    | succ fuel =>
      rw [bfsLoop]
      have hq : st.queue = (url, depth) :: (pending ++ rest) := by
        rw [hqueue]; rfl
      have hguard : st.seen.length < MAX_PAGES_PER_HOST := by
        rw [hsf]
        simp only [List.length_cons] at hlen
        omega
      have hlen' : st.fetched.length + pending.length + 1 ≤ MAX_PAGES_PER_HOST := by
        simp only [List.length_cons] at hlen
        omega
      by_cases hseen : st.seen.contains (String.mk (rstripSlash url.data))
      · have hstep : bfsStep web host st = .cont { st with queue := pending ++ rest } := by
          simp only [bfsStep, hq]
          rw [if_pos hguard, if_pos hseen]
        rw [hstep]
        rcases List.mem_cons.mp hp with heq | hp'
        · have hu : String.mk (rstripSlash url.data) ∈ st.fetched := by
            rw [← hsf]; exact List.elem_iff.mp hseen
          rw [heq]
          exact bfsLoop_fetched_mono web host fuel _ _ hu
        · exact ih fuel { st with queue := pending ++ rest } rest rfl hsf
            (by simpa using Nat.le_of_succ_le hlen')
            (by simp only [List.length_cons] at hfuel; omega) p hp'
      · cases hweb : web (String.mk (rstripSlash url.data)) with
        | none =>
          have hstep : bfsStep web host st =
              .cont (bfsFetchMark st (String.mk (rstripSlash url.data)) (pending ++ rest)) := by
            simp only [bfsStep, hq]
            rw [if_pos hguard, if_neg hseen, hweb]
          rw [hstep]
          rcases List.mem_cons.mp hp with heq | hp'
          · rw [heq]
            refine bfsLoop_fetched_mono web host fuel _ _ ?_
            simp [bfsFetchMark]
          · refine ih fuel _ rest rfl (by simp [bfsFetchMark, hsf]) ?_ (by simp only [List.length_cons] at hfuel; omega) p hp'
            simp only [bfsFetchMark, List.length_append, List.length_singleton]
            omega
        | some page =>
          have hstep : bfsStep web host st =
              .cont (bfsProcessPage host depth (String.mk (rstripSlash url.data)) page
                (bfsFetchMark st (String.mk (rstripSlash url.data)) (pending ++ rest))) := by
            simp only [bfsStep, hq]
            rw [if_pos hguard, if_neg hseen, hweb]
          rw [hstep]
          obtain ⟨hs, hf, extra, henq, hqu, hall⟩ := bfsProcessPage_fields host depth
            (String.mk (rstripSlash url.data)) page
            (bfsFetchMark st (String.mk (rstripSlash url.data)) (pending ++ rest))
          rcases List.mem_cons.mp hp with heq | hp'
          · rw [heq]
            refine bfsLoop_fetched_mono web host fuel _ _ ?_
            rw [hf]
            simp [bfsFetchMark]
          · refine ih fuel _ (rest ++ extra) ?_ ?_ ?_ (by simp only [List.length_cons] at hfuel; omega) p hp'
            · rw [hqu]
              simp [bfsFetchMark]
            · rw [hs, hf]
              simp [bfsFetchMark, hsf]
            · rw [hf]
              simp only [bfsFetchMark, List.length_append, List.length_singleton]
              omega

/-- C5: for any web, seed list and fuel, the crawler fetches at most
`MAX_PAGES_PER_HOST` (300) pages, and every frontier entry it discovers
and enqueues has depth at most `MAX_DEPTH` (2) and a URL free of the
fixed excluded path segments.  (Seeds themselves enter the frontier at
depth 0 and are not subject to the exclusion filter — see C10.) -/
theorem c5_crawler_bounds (web : String → Option Page) (host_base : String)
    (seeds : List String) (fuel : Nat) :
    (bfsRun web host_base seeds fuel).fetched.length ≤ MAX_PAGES_PER_HOST ∧
      (bfsRun web host_base seeds fuel).enqueued.all enqOk = true := by
  have h := bfsLoop_inv web (urlNetloc host_base.data) fuel
    ⟨[], seeds.map (fun u => (u, 0)), [], [], []⟩ ⟨rfl, by simp, rfl⟩
  exact ⟨h.2.1, h.2.2⟩

/-- C10: every seed URL is fetched (its trailing-slash-normalized form is
passed to `get`), with no exclusion-segment condition on the seed — the
exclusion filter applies only to links discovered during the crawl.  The
side conditions only rule out degenerate runs: more seeds than the page
cap, or too little fuel to pop every seed once. -/
theorem c10_seeds_fetched_despite_exclusions (web : String → Option Page)
    (host_base : String) (seeds : List String) (fuel : Nat)
    (hlen : seeds.length ≤ MAX_PAGES_PER_HOST) (hfuel : seeds.length ≤ fuel) :
    ∀ s ∈ seeds,
      String.mk (rstripSlash s.data) ∈ (bfsRun web host_base seeds fuel).fetched := by
  intro s hs
  exact bfsLoop_pending_fetched web (urlNetloc host_base.data)
    (seeds.map (fun u => (u, 0))) fuel ⟨[], seeds.map (fun u => (u, 0)), [], [], []⟩ []
    (by simp) rfl (by simpa using hlen) (by simpa using hfuel) (s, 0)
    (List.mem_map.mpr ⟨s, hs, rfl⟩)

theorem c10_seeds_fetched_witness :
    (["http://h/tag/x"] : List String).length ≤ MAX_PAGES_PER_HOST ∧
      String.mk (rstripSlash (String.data "http://h/tag/x")) ∈
        (bfsRun c10Web "http://h/" ["http://h/tag/x"] 1).fetched :=
  ⟨by decide,
   c10_seeds_fetched_despite_exclusions c10Web "http://h/" ["http://h/tag/x"] 1
     (by decide) (by decide) "http://h/tag/x" (by simp)⟩


/-- C3: when the collection run produced zero stops, the snapshot file
bytes are exactly the previous bytes (nothing is written over them), the
run does not die, and — whenever the previous snapshot file decodes to a
(truthy) wrapper — a diff report with empty added/removed stop and route
lists (totals taken from the previous rows) is written instead. -/
theorem c3_zero_stops_preserves_snapshot (prevBytes : Option String) (decode : String → Option PrevWrapper)
    (encode : ℚ → List SnapStop → String) (routes : List Route) (now : ℚ)
    (hempty : routes.all (fun r => r.stops.isEmpty) = true) :
    (runDiffExport prevBytes decode encode routes now).dataFile = prevBytes ∧
      (runDiffExport prevBytes decode encode routes now).crashed = false ∧
      ∀ w, prevBytes.bind decode = some w → w.truthy = true →
        (runDiffExport prevBytes decode encode routes now).changesFile =
          some ⟨now, prevRouteTotal w.stops, prevStopTotal w.stops, [], [], [], []⟩ := by
  have hflat : (routes.foldr (fun r acc =>
      r.stops.map (fun s =>
        (⟨r.fc, r.route, r.route_slug, r.source,
          s.stop_name, s.lat, s.lon, s.url, s.context_times⟩ : SnapStop)) ++ acc) [])
      = [] := by
    induction routes with
    | nil => rfl
    | cons r rs ih =>
      rw [List.all_cons] at hempty
      obtain ⟨h1, h2⟩ := Bool.and_eq_true _ _ |>.mp hempty
      have hr : r.stops = [] := by
        cases hs : r.stops
        · rfl
        · rw [hs] at h1; exact absurd h1 (by simp)
      rw [List.foldr_cons, hr, ih h2]
      rfl
  unfold runDiffExport
  rw [hflat]
  simp only [show dedupe_stops ([] : List SnapStop) [] = some [] from rfl,
    show sortStops (duplicate_wro_if_needed []) = some [] from rfl,
    List.isEmpty_nil]
  cases hw : prevBytes.bind decode with
  | none =>
    refine ⟨by simp, by simp, ?_⟩
    intro w hw2 _
    exact absurd hw2 (by simp)
  | some w =>
    by_cases ht : w.truthy
    · refine ⟨by simp [ht], by simp [ht], ?_⟩
      intro w2 hw2 ht2
      obtain rfl : w = w2 := by injection hw2
      simp [ht]
    · refine ⟨by simp [ht], by simp [ht], ?_⟩
      intro w2 hw2 ht2
      obtain rfl : w = w2 := by injection hw2
      exact absurd ht2 ht

theorem c3_zero_stops_witness :
    (([] : List Route).all (fun r => r.stops.isEmpty) = true) ∧
      (runDiffExport (some "PREV") c3Decode c3Encode [] 0).dataFile = some "PREV" ∧
      (runDiffExport (some "PREV") c3Decode c3Encode [] 0).changesFile =
        some ⟨0, 1, 1, [], [], [], []⟩ := by
  have h := c3_zero_stops_preserves_snapshot (some "PREV") c3Decode c3Encode [] 0 (by decide)
  refine ⟨by decide, h.1, ?_⟩
  have h3 := h.2.2 c3Wrapper (by decide) rfl
  rw [h3]
  decide

end TransportFc
